import Mathlib

set_option maxRecDepth 4000

/-!
Verification of the geo-ip-generator core against its design spec.

Shallow embedding of the address codec (ip-utils.ts, ip-service-v6-json),
the range sampler, the territory resolver, the cache-aside wrapper and the
fixed-window rate limiter.  Strings are modelled as lists of characters;
JavaScript builtins (split, Number, parseInt, toString(16), trim) are
modelled by total Lean functions that agree with the builtin on the
inputs exercised here (decimal/hex integer syntax; scientific notation and
fractional forms are outside the modelled fragment and are irrelevant to
the inputs appearing in the theorems below).
-/

/-- Model of the JavaScript whitespace test used by String.prototype.trim
and Number coercion (restricted to the common whitespace characters). -/
def isJsSpace (c : Char) : Bool :=
  c = ' ' ∨ c = '\t' ∨ c = '\n' ∨ c = '\r'

/-- Model of JS String.prototype.trim. -/
def jsTrim (l : List Char) : List Char :=
  ((l.dropWhile isJsSpace).reverse.dropWhile isJsSpace).reverse

/-- Model of JS s.split(c) for a single-character separator c:
"".split(c) = [""], separators at the edges produce empty fields. -/
def jsSplitChar (c : Char) : List Char → List (List Char)
  | [] => [[]]
  | a :: rest =>
    if a = c then
      [] :: jsSplitChar c rest
    else
      match jsSplitChar c rest with
      | [] => [[a]]
      | h :: t => (a :: h) :: t

/-- Model of JS s.split("::") (the two-colon separator used by
ipv6ToBigInt): scan left to right, consuming two colons at a time. -/
def jsSplitDC : List Char → List (List Char)
  | [] => [[]]
  | ':' :: ':' :: rest => [] :: jsSplitDC rest
  | c :: rest =>
    match jsSplitDC rest with
    | [] => [[c]]
    | h :: t => (c :: h) :: t

/-- Number of non-overlapping occurrences of "::" in a string, scanning
left to right (as JS indexOf-based counting would report). -/
def countDC : List Char → Nat
  | [] => 0
  | [_] => 0
  | a :: b :: rest =>
    if a = ':' ∧ b = ':' then countDC rest + 1 else countDC (b :: rest)

/-- Decimal digit test. -/
def isDecDigit (c : Char) : Bool := '0' ≤ c ∧ c ≤ '9'

/-- Value of a decimal digit character. -/
def decDigitVal (c : Char) : Nat := c.toNat - 48

/-- Fold a list of decimal digits into a number, most significant first. -/
def decFold : List Char → Nat → Nat
  | [], acc => acc
  | c :: cs, acc => decFold cs (acc * 10 + decDigitVal c)

/-- Value of a non-empty all-decimal-digit string; none otherwise. -/
def decVal? (l : List Char) : Option Nat :=
  if l ≠ [] ∧ l.all isDecDigit then some (decFold l 0) else none

/-- Hexadecimal digit value (0-9, a-f, A-F); none otherwise. -/
def hexDigitVal? (c : Char) : Option Nat :=
  if '0' ≤ c ∧ c ≤ '9' then some (c.toNat - 48)
  else if 'a' ≤ c ∧ c ≤ 'f' then some (c.toNat - 87)
  else if 'A' ≤ c ∧ c ≤ 'F' then some (c.toNat - 55)
  else none

/-- Fold a list of hex digits into a number, most significant first. -/
def hexFold : List Char → Nat → Nat
  | [], acc => acc
  | c :: cs, acc => hexFold cs (acc * 16 + (hexDigitVal? c).getD 0)

/-- Value of a non-empty all-hex-digit string; none otherwise. -/
def hexVal? (l : List Char) : Option Nat :=
  if l ≠ [] ∧ l.all (fun c => (hexDigitVal? c).isSome) then some (hexFold l 0)
  else none

/-- Model of the JS Number(string) coercion on the integer fragment:
trimmed empty string coerces to 0, an optional sign precedes decimal
digits, a 0x/0X prefix introduces hex; anything else is NaN (none). -/
def jsNumber (s : List Char) : Option Int :=
  let t := jsTrim s
  if t = [] then some 0
  else if t.head? = some '-' then (decVal? t.tail).map (fun n => -(n : Int))
  else if t.head? = some '+' then (decVal? t.tail).map (fun n => (n : Int))
  else if t.take 2 = ['0', 'x'] ∨ t.take 2 = ['0', 'X'] then
    (hexVal? (t.drop 2)).map (fun n => (n : Int))
  else (decVal? t).map (fun n => (n : Int))

/-- Model of JS parseInt(s, 16): skip leading whitespace, optional sign,
optional 0x/0X, then the longest prefix of hex digits; NaN (none) when
that prefix is empty, otherwise the prefix value with trailing garbage
ignored. -/
def jsParseIntHex (s : List Char) : Option Int :=
  let t := s.dropWhile isJsSpace
  let signNeg : Bool := t.head? = some '-'
  let t1 := if t.head? = some '-' ∨ t.head? = some '+' then t.tail else t
  let t2 := if t1.take 2 = ['0', 'x'] ∨ t1.take 2 = ['0', 'X'] then t1.drop 2 else t1
  let ds := t2.takeWhile (fun c => (hexDigitVal? c).isSome)
  if ds = [] then none
  else some ((if signNeg then -1 else 1) * (hexFold ds 0 : Int))

/-- Decimal digit character (n < 10 expected). -/
def decDigitChar (n : Nat) : Char :=
  match n with
  | 0 => '0' | 1 => '1' | 2 => '2' | 3 => '3' | 4 => '4'
  | 5 => '5' | 6 => '6' | 7 => '7' | 8 => '8' | 9 => '9'
  | _ => '*'

/-- Hexadecimal digit character, lowercase (n < 16 expected). -/
def hexDigitChar (n : Nat) : Char :=
  match n with
  | 0 => '0' | 1 => '1' | 2 => '2' | 3 => '3' | 4 => '4'
  | 5 => '5' | 6 => '6' | 7 => '7' | 8 => '8' | 9 => '9'
  | 10 => 'a' | 11 => 'b' | 12 => 'c' | 13 => 'd' | 14 => 'e' | 15 => 'f'
  | _ => '*'

/-- Fuelled digit extraction for decimal rendering (the fuel is a bound
on the number of digits; any fuel above the value itself suffices). -/
def natToDecCharsGo : Nat → Nat → List Char
  | 0, _ => []
  | fuel + 1, n =>
    if n < 10 then [decDigitChar n]
    else natToDecCharsGo fuel (n / 10) ++ [decDigitChar (n % 10)]

/-- Decimal rendering of a natural number, as JS String(n) produces for
integral values. -/
def natToDecChars (n : Nat) : List Char := natToDecCharsGo (n + 1) n

/-- Fuelled digit extraction for lowercase hexadecimal rendering. -/
def natToHexCharsGo : Nat → Nat → List Char
  | 0, _ => []
  | fuel + 1, n =>
    if n < 16 then [hexDigitChar n]
    else natToHexCharsGo fuel (n / 16) ++ [hexDigitChar (n % 16)]

/-- Lowercase hexadecimal rendering of a natural number, as JS
n.toString(16) produces for non-negative integral values. -/
def natToHexChars (n : Nat) : List Char := natToHexCharsGo (n + 1) n

/-- The per-segment rejection test of ipToInt: isNaN(part) or part < 0
or part > 255 (none models NaN). -/
def octetBad (q : Option Int) : Bool :=
  match q with
  | none => true
  | some v => v < 0 ∨ 255 < v

/-- The value of a segment as used in the big-endian combination (only
reached when no segment is bad). -/
def octetVal (q : Option Int) : Int := q.getD 0

/-- Embedding of ipToInt from src/lib/ip-utils.ts: split on '.', coerce
each part with Number, throw unless there are exactly four parts none of
which is NaN or out of [0, 255], and combine big-endian.  none models
the thrown "Invalid IP address format" error. -/
def ipToIntL (s : List Char) : Option Int :=
  let parts := (jsSplitChar '.' s).map jsNumber
  if parts.length ≠ 4 ∨ parts.any octetBad then none
  else some (octetVal (parts.getD 0 none) * 16777216 +
    octetVal (parts.getD 1 none) * 65536 +
    octetVal (parts.getD 2 none) * 256 + octetVal (parts.getD 3 none))

/-- String-level wrapper for ipToInt. -/
def ipToInt (s : String) : Option Int := ipToIntL s.data

/-- Embedding of intToIp from src/lib/ip-utils.ts: extract the four bytes
by floored division (exact for values below 2^32, where the source's
float arithmetic is exact) and join with '.'. -/
def intToIpL (v : Nat) : List Char :=
  List.intercalate ['.']
    [natToDecChars (v / 16777216 % 256), natToDecChars (v / 65536 % 256),
     natToDecChars (v / 256 % 256), natToDecChars (v % 256)]

/-- String-level wrapper for intToIp. -/
def intToIp (v : Nat) : String := String.mk (intToIpL v)

/-- Embedding of ipv6ToBigInt from the IPv6 JSON service: split on "::",
take the first two components (extra components are silently dropped by
the destructuring), split those on ':' dropping empty fields, zero-fill
to 8 groups, require exactly 8 groups, and fold each group through
parseInt(-, 16) big-endian.  none models a thrown error (the explicit
"Invalid IPv6 address" throw, or BigInt(NaN) when parseInt yields NaN). -/
def ipv6ToBigIntFold (acc : Int) : List (List Char) → Option Int
  | [] => some acc
  | p :: ps =>
    match jsParseIntHex (if p = [] then ['0'] else p) with
    | none => none
    | some v => ipv6ToBigIntFold (acc * 65536 + v) ps

/-- The eight-group expansion step of ipv6ToBigInt: head groups, the
zero-filled gap of Math.max(0, 8 - total) groups, tail groups. -/
def ipv6PartsOf (s : List Char) : List (List Char) :=
  let comps := jsSplitDC s
  let headParts :=
    match comps.get? 0 with
    | some h => (jsSplitChar ':' h).filter (fun p => p ≠ [])
    | none => []
  let tailParts :=
    match comps.get? 1 with
    | some t => (jsSplitChar ':' t).filter (fun p => p ≠ [])
    | none => []
  let totalParts := headParts.length + tailParts.length
  headParts ++ List.replicate (8 - totalParts) ['0'] ++ tailParts

/-- ipv6ToBigInt, list-of-characters level. -/
def ipv6ToBigIntL (s : List Char) : Option Int :=
  if (ipv6PartsOf s).length ≠ 8 then none
  else ipv6ToBigIntFold 0 (ipv6PartsOf s)

/-- String-level wrapper for ipv6ToBigInt. -/
def ipv6ToBigInt (s : String) : Option Int := ipv6ToBigIntL s.data

/-- The eight hextet strings of a 128-bit value, most significant first,
each rendered with toString(16) (lowercase, no leading zeros), exactly as
the extraction loop of bigIntToIpv6 produces them. -/
def hextetsOf (x : Nat) : List (List Char) :=
  (List.range 8).map (fun i => natToHexChars (x / 2 ^ (16 * (7 - i)) % 65536))

/-- One step of the zero-run scan of bigIntToIpv6.  State is
(bestStart, bestLen, curStart, curLen) with the -1 sentinel kept as an
integer, mirroring the source. -/
def zeroRunStep (st : Int × Nat × Int × Nat) (ip : Nat × List Char) :
    Int × Nat × Int × Nat :=
  let (bestStart, bestLen, curStart, curLen) := st
  let (i, p) := ip
  if p = ['0'] then
    if curStart = -1 then (bestStart, bestLen, (i : Int), 1)
    else (bestStart, bestLen, curStart, curLen + 1)
  else
    if curLen > bestLen then (curStart, curLen, -1, 0)
    else (bestStart, bestLen, -1, 0)

/-- The zero-run scan of bigIntToIpv6: best (start, length) of a run of
"0" hextets, with the final flush after the loop. -/
def bestZeroRun (parts : List (List Char)) : Int × Nat :=
  let st := parts.enum.foldl zeroRunStep (-1, 0, -1, 0)
  let (bestStart, bestLen, curStart, curLen) := st
  if curLen > bestLen then (curStart, curLen) else (bestStart, bestLen)

/-- Model of the final .replace(/^:|:$/g, "") of bigIntToIpv6: one
leading and one trailing colon are removed. -/
def stripEdgeColons (l : List Char) : List Char :=
  let l1 := match l with
    | ':' :: t => t
    | other => other
  (match l1.reverse with
    | ':' :: t => t
    | other => other).reverse

/-- Embedding of bigIntToIpv6 from the IPv6 JSON service: render the 8
hextets, find the best zero run, and when its length exceeds 1 splice the
parts around it with the source's template string
before + (before ? ":" : "") + "::" + (after ? ":" : "") + after
followed by the edge-colon strip; otherwise join all parts with ':'. -/
def bigIntToIpv6L (x : Nat) : List Char :=
  let parts := hextetsOf x
  let (bestStart, bestLen) := bestZeroRun parts
  if bestLen > 1 then
    let before := List.intercalate [':'] (parts.take bestStart.toNat)
    let after := List.intercalate [':'] (parts.drop (bestStart.toNat + bestLen))
    stripEdgeColons
      (before ++ (if before ≠ [] then [':'] else []) ++ [':', ':'] ++
        (if after ≠ [] then [':'] else []) ++ after)
  else List.intercalate [':'] parts

/-- String-level wrapper for bigIntToIpv6. -/
def bigIntToIpv6 (x : Nat) : String := String.mk (bigIntToIpv6L x)


/-- UINT128_MAX from the IPv6 JSON service: (1n << 128n) - 1n. -/
def UINT128_MAX : Nat := 2 ^ 128 - 1

/-- The byte-fold of randomUint128: sixteen random bytes are folded
big-endian into one natural number. -/
def randomUint128Of (bytes : List Nat) : Nat :=
  bytes.foldl (fun acc b => acc * 256 + b) 0

/-- The acceptance test of the rejection loop in randomBigIntInRange: a
draw r is kept exactly when r <= UINT128_MAX - (UINT128_MAX % range). -/
def acceptDraw (range r : Nat) : Bool :=
  r ≤ UINT128_MAX - UINT128_MAX % range

/-- The rejection threshold the spec prescribes: keep r exactly when
r < floor(2^128 / range) * range. -/
def specAcceptDraw (range r : Nat) : Bool :=
  r < 2 ^ 128 / range * range

/-- One iteration of randomBigIntInRange on a given 128-bit draw r:
some result when the draw is accepted, none when the loop retries. -/
def randomBigIntInRangeStep (start e r : Nat) : Option Nat :=
  let range := e - start + 1
  if acceptDraw range r then some (start + r % range) else none

/-- The full rejection loop of randomBigIntInRange, run on an explicit
stream of 128-bit draws: the first accepted draw produces the result. -/
def randomBigIntInRangeRun (start e : Nat) : List Nat → Option Nat
  | [] => none
  | r :: rs =>
    match randomBigIntInRangeStep start e r with
    | some v => some v
    | none => randomBigIntInRangeRun start e rs

/-- Number of accepted 128-bit draws that randomBigIntInRange maps to the
offset v within a range of the given size. -/
def acceptedCount (range v : Nat) : Nat :=
  ((Finset.range (2 ^ 128)).filter
    (fun r => acceptDraw range r = true ∧ r % range = v)).card

/-- The sampling core shared by the two IPv4 generateRandomIpInRange
implementations (src/lib/ip-utils.ts and the JSON service): the random
draw u of Math.random() is modelled as an exact rational in [0, 1), and
the offset is Math.floor(u * (range + 1)). -/
def ipv4RandomIpInt (startInt endInt : Nat) (u : ℚ) : Int :=
  (startInt : Int) + ⌊u * ((endInt : ℚ) - (startInt : ℚ) + 1)⌋

/-- The dotted-quad rendering used by the JSON service's
generateRandomIpInRange: Number(randomIpInt) is forced to uint32 by the
>>> shifts, so each byte is (n mod 2^32) shifted and masked. -/
def renderUint32Quad (n : Nat) : List Char :=
  List.intercalate ['.']
    [natToDecChars (n % 2 ^ 32 / 2 ^ 24 % 256), natToDecChars (n % 2 ^ 32 / 2 ^ 16 % 256),
     natToDecChars (n % 2 ^ 32 / 2 ^ 8 % 256), natToDecChars (n % 2 ^ 32 % 256)]

/-- Embedding of generateRandomIpInRange from src/lib/ip-utils.ts at the
integer level: the returned text is intToIp of the sampled integer. -/
def generateRandomIpInRangeUtils (startInt endInt : Nat) (u : ℚ) : List Char :=
  intToIpL (ipv4RandomIpInt startInt endInt u).toNat

/-- Embedding of generateRandomIpInRange from the IPv4 JSON service:
the sampled integer rendered through the >>> byte extraction. -/
def generateRandomIpInRangeJson (startInt endInt : Nat) (u : ℚ) : List Char :=
  renderUint32Quad (ipv4RandomIpInt startInt endInt u).toNat

/-- Territory record as the IPv6 JSON service sees it (the fields that
country resolution reads; range data is irrelevant to resolution). -/
structure CountryV6 where
  id : List Char
  code2 : List Char
  nameEn : List Char
  nameZh : Option (List Char)
deriving DecidableEq

/-- ASCII model of toLowerCase (the dataset codes and names exercised
here are ASCII). -/
def toLowerChar (c : Char) : Char :=
  if 'A' ≤ c ∧ c ≤ 'Z' then Char.ofNat (c.toNat + 32) else c

/-- Lowercasing a string. -/
def toLowerL (l : List Char) : List Char := l.map toLowerChar

/-- Model of JS String.prototype.includes: substring containment. -/
def jsIncludes (n : List Char) : List Char → Bool
  | [] => n.isEmpty
  | c :: t => n.isPrefixOf (c :: t) || jsIncludes n t

/-- The normalised query of findCountryV6: query.toLowerCase().trim(). -/
def normQuery (q : List Char) : List Char := jsTrim (toLowerL q)

/-- The exact-match predicate of findCountryV6 (first find): equality of
the lowercased id, code2, nameEn or nameZh with the normalised query. -/
def exactMatchB (q : List Char) (c : CountryV6) : Bool :=
  toLowerL c.id = q ∨ toLowerL c.code2 = q ∨ toLowerL c.nameEn = q ∨
    c.nameZh.any (fun z => toLowerL z = q)

/-- The substring-match predicate of findCountryV6 (second find):
the normalised query occurs in the lowercased nameEn or nameZh. -/
def fuzzyMatchB (q : List Char) (c : CountryV6) : Bool :=
  jsIncludes q (toLowerL c.nameEn) ||
    c.nameZh.any (fun z => jsIncludes q (toLowerL z))

/-- Embedding of findCountryV6 from the IPv6 JSON service: the first
exact match in dataset order, else the first substring match, else
none. -/
def findCountryV6 (countries : List CountryV6) (query : List Char) :
    Option CountryV6 :=
  let q := normQuery query
  match countries.find? (exactMatchB q) with
  | some c => some c
  | none => countries.find? (fuzzyMatchB q)

/-- A JSON-serialisable payload as the cache stores it: null, or an
opaque non-null JSON value.  JSON.stringify/JSON.parse round-trip is the
identity on this model. -/
inductive JsVal where
  | null : JsVal
  | payload : Nat → JsVal
deriving DecidableEq

/-- The backing key-value store of CacheManager: enabled mirrors
isEnabled and the redis handle being present; ok = false means every
store operation throws (connection failure); entries hold the parsed
payloads keyed by "prefix:identifier". -/
structure KVStore where
  enabled : Bool
  ok : Bool
  entries : List (List Char × JsVal)
deriving DecidableEq

/-- Association-list lookup (leftmost binding wins, as a keyed store). -/
def lookupKV (entries : List (List Char × JsVal)) (key : List Char) :
    Option JsVal :=
  match entries with
  | [] => none
  | (k, v) :: rest => if k = key then some v else lookupKV rest key

/-- Embedding of CacheManager.get: null when the cache is disabled, null
on a store error (the catch branch), null on a miss, and the parsed
payload otherwise — in particular a stored null payload is returned as
null, because JSON.parse("null") is null. -/
def cacheGet (st : KVStore) (key : List Char) : JsVal :=
  if ¬st.enabled then JsVal.null
  else if ¬st.ok then JsVal.null
  else
    match lookupKV st.entries key with
    | none => JsVal.null
    | some v => v

/-- Embedding of CacheManager.set: a no-op when disabled or on a store
error (the catch branch), otherwise the serialized payload is stored
under the key.  The TTL is retained by the store; expiry is not reached
within the single-window scenarios modelled here. -/
def cacheSet (st : KVStore) (key : List Char) (v : JsVal) : KVStore :=
  if ¬st.enabled then st
  else if ¬st.ok then st
  else { st with entries := (key, v) :: st.entries }

/-- Embedding of withCache: try the cache, treat a null as a miss, else
invoke the producer, store its result and return it.  The producer is a
pure value here (its result); the third component records whether the
producer ran. -/
def withCache (st : KVStore) (key : List Char) (producer : JsVal) :
    JsVal × KVStore × Bool :=
  let cached := cacheGet st key
  if cached ≠ JsVal.null then (cached, st, false)
  else (producer, cacheSet st key producer, true)

/-- Per-endpoint rate-limit configuration (requests, windowMs, ttl), as
in RATE_LIMITS of src/config/cache.ts. -/
structure RLConfig where
  requests : Nat
  windowMs : Nat
  ttl : Nat
deriving DecidableEq

/-- The backing counter store of the rate limiter: entries map a
"ip:endpoint" key to (count, expiresAt seconds). -/
structure RLStore where
  enabled : Bool
  ok : Bool
  entries : List (List Char × Nat × Nat)
deriving DecidableEq

/-- Association-list lookup for counter entries. -/
def lookupRL (entries : List (List Char × Nat × Nat)) (key : List Char) :
    Option (Nat × Nat) :=
  match entries with
  | [] => none
  | (k, v) :: rest => if k = key then some v else lookupRL rest key

/-- Overwrite a counter entry. -/
def setRL (entries : List (List Char × Nat × Nat)) (key : List Char)
    (v : Nat × Nat) : List (List Char × Nat × Nat) :=
  (key, v) :: entries.filter (fun e => e.1 ≠ key)

/-- Embedding of CacheManager.incrementRateLimit: 0 when the store is
disabled or errors (fail open); otherwise a Redis INCR — an absent or
expired key becomes 1 and receives the window expiry, a live key is
incremented keeping its expiry.  Returns the post-increment count and
the new store. -/
def incrementRateLimit (st : RLStore) (key : List Char) (ttl now : Nat) :
    Nat × RLStore :=
  if ¬st.enabled then (0, st)
  else if ¬st.ok then (0, st)
  else
    match lookupRL st.entries key with
    | none => (1, { st with entries := setRL st.entries key (1, now + ttl) })
    | some (count, expiresAt) =>
      if expiresAt ≤ now then
        (1, { st with entries := setRL st.entries key (1, now + ttl) })
      else
        (count + 1, { st with entries := setRL st.entries key (count + 1, expiresAt) })

/-- The decision of the rate-limit middleware: null (continue) or a 429
response carrying retryAfter seconds. -/
inductive RLDecision where
  | allow : RLDecision
  | deny : Nat → RLDecision
deriving DecidableEq

/-- Embedding of rateLimitMiddleware (the decision core): increment the
counter; a zero count means the store is unavailable and the request is
allowed (fail open); a count above the endpoint limit is denied with
retryAfter = Math.ceil(windowMs / 1000); otherwise the request is
allowed. -/
def rateLimitMiddleware (cfg : RLConfig) (st : RLStore) (key : List Char)
    (now : Nat) : RLDecision × RLStore :=
  let (currentCount, st') := incrementRateLimit st key cfg.ttl now
  if currentCount = 0 then (RLDecision.allow, st')
  else if cfg.requests < currentCount then
    (RLDecision.deny ((cfg.windowMs + 999) / 1000), st')
  else (RLDecision.allow, st')

/-- Remaining window TTL of a counter key as the backing store sees it. -/
def remainingTTL (st : RLStore) (key : List Char) (now : Nat) : Nat :=
  match lookupRL st.entries key with
  | none => 0
  | some (_, expiresAt) => expiresAt - now

/-- The generate-ip / generate-ipv6 entry of RATE_LIMITS: 10 requests per
60000 ms window, 60 s counter TTL. -/
def generateIpLimit : RLConfig := ⟨10, 60000, 60⟩

/-- Iterated calls of the rate-limit middleware for the same key at the
same instant, returning the final store (used for the 11-calls-in-one-
window scenario). -/
def rateLimitCalls (cfg : RLConfig) (key : List Char) (now : Nat) :
    Nat → RLStore → RLStore
  | 0, st => st
  | n + 1, st => rateLimitCalls cfg key now n (rateLimitMiddleware cfg st key now).2

/-- A territory whose English name strictly contains the query used in
the resolver scenarios below. -/
def cIndochina : CountryV6 :=
  ⟨"XAA".data, "XA".data, "Indochina Area".data, none⟩

/-- A territory whose English name is the shorter substring match in the
resolver scenarios below. -/
def cChina : CountryV6 :=
  ⟨"CHN".data, "CN".data, "China".data, none⟩

/-- Count of even numbers below N. -/
theorem card_even_filter_range (N : Nat) :
    ((Finset.range N).filter (fun r => r % 2 = 0)).card = (N + 1) / 2 := by
  induction N with
  | zero => simp
  | succ n ih =>
    rw [Finset.range_succ, Finset.filter_insert]
    by_cases h : n % 2 = 0
    · rw [if_pos h, Finset.card_insert_of_not_mem (by simp), ih]
      omega
    · rw [if_neg h, ih]
      omega

/-- Count of odd numbers below N. -/
theorem card_odd_filter_range (N : Nat) :
    ((Finset.range N).filter (fun r => r % 2 = 1)).card = N / 2 := by
  induction N with
  | zero => simp
  | succ n ih =>
    rw [Finset.range_succ, Finset.filter_insert]
    by_cases h : n % 2 = 1
    · rw [if_pos h, Finset.card_insert_of_not_mem (by simp), ih]
      omega
    · rw [if_neg h, ih]
      omega

/-- Within a range of size 2, the code's acceptance rule keeps 2^127
draws that map to offset 0. -/
theorem acceptedCount_two_0 : acceptedCount 2 0 = 2 ^ 127 := by
  have h : (2 : ℕ) ^ 128 = 2 ^ 127 * 2 := by ring
  have e1 : (Finset.range (2 ^ 128)).filter
        (fun r => acceptDraw 2 r = true ∧ r % 2 = 0)
      = (Finset.range (2 ^ 128 - 1)).filter (fun r => r % 2 = 0) := by
    ext r
    simp only [Finset.mem_filter, Finset.mem_range, acceptDraw, UINT128_MAX,
      decide_eq_true_eq]
    omega
  unfold acceptedCount
  rw [e1, card_even_filter_range]
  omega

/-- Within a range of size 2, the code's acceptance rule keeps only
2^127 - 1 draws that map to offset 1. -/
theorem acceptedCount_two_1 : acceptedCount 2 1 = 2 ^ 127 - 1 := by
  have h : (2 : ℕ) ^ 128 = 2 ^ 127 * 2 := by ring
  have e1 : (Finset.range (2 ^ 128)).filter
        (fun r => acceptDraw 2 r = true ∧ r % 2 = 1)
      = (Finset.range (2 ^ 128 - 1)).filter (fun r => r % 2 = 1) := by
    ext r
    simp only [Finset.mem_filter, Finset.mem_range, acceptDraw, UINT128_MAX,
      decide_eq_true_eq]
    omega
  unfold acceptedCount
  rw [e1, card_odd_filter_range]
  omega

/-- Claim C2 (code bug): the rejection rule of randomBigIntInRange keeps
a draw r iff r <= UINT128_MAX - (UINT128_MAX mod range), which is off by
one from the claimed threshold floor(2^128 / range) * range.  For the
two-element range [start, start+1] the draw r = 2^128 - 1 is retried by
the code although the claimed rule accepts every draw, and the offsets 0
and 1 receive unequal numbers of accepted draws (2^127 versus
2^127 - 1), so the sampler is modulo-biased toward the start of the
range. -/
theorem randomBigIntInRange_rejection_biased :
    acceptDraw 2 (2 ^ 128 - 1) = false ∧
    specAcceptDraw 2 (2 ^ 128 - 1) = true ∧
    acceptedCount 2 0 = 2 ^ 127 ∧
    acceptedCount 2 1 = 2 ^ 127 - 1 ∧
    acceptedCount 2 0 ≠ acceptedCount 2 1 := by
  refine ⟨by decide, by decide, acceptedCount_two_0, acceptedCount_two_1, ?_⟩
  rw [acceptedCount_two_0, acceptedCount_two_1]
  have h : (2 : ℕ) ^ 127 = 2 ^ 126 * 2 := by ring
  omega

/-- Claim C1 (code bug): the 128-bit codec round-trip fails.  For
v = 2^112 + 2 the renderer compresses the interior zero run with the
malformed template "1::::2", and parsing that text back drops the final
hextet, yielding 2^112 instead of v. -/
theorem ipv6_roundtrip_fails :
    bigIntToIpv6 (2 ^ 112 + 2) = "1::::2" ∧
    ipv6ToBigInt (bigIntToIpv6 (2 ^ 112 + 2)) = some ((2 : Int) ^ 112) ∧
    ipv6ToBigInt (bigIntToIpv6 (2 ^ 112 + 2)) ≠ some ((2 : Int) ^ 112 + 2) ∧
    2 ^ 112 + 2 < 2 ^ 128 := by
  refine ⟨by decide, by decide, by decide, by decide⟩

/-- Claim C3 (code bug): compression canonicality fails.  For
v = 2^112 + 2 (hextets 1,0,0,0,0,0,0,2) the rendered text "1::::2"
contains two occurrences of "::" instead of at most one. -/
theorem ipv6_compression_two_double_colons :
    bigIntToIpv6 (2 ^ 112 + 2) = "1::::2" ∧
    countDC (bigIntToIpv6L (2 ^ 112 + 2)) = 2 ∧
    2 ^ 112 + 2 < 2 ^ 128 := by
  refine ⟨by decide, by decide, by decide⟩

/-- Fuel irrelevance for decimal rendering. -/
theorem natToDecCharsGo_congr (n : Nat) :
    ∀ f1 f2 : Nat, n < f1 → n < f2 →
      natToDecCharsGo f1 n = natToDecCharsGo f2 n := by
  induction n using Nat.strong_induction_on with
  | _ n ih =>
    intro f1 f2 h1 h2
    obtain ⟨g1, rfl⟩ : ∃ g, f1 = g + 1 := ⟨f1 - 1, by omega⟩
    obtain ⟨g2, rfl⟩ : ∃ g, f2 = g + 1 := ⟨f2 - 1, by omega⟩
    simp only [natToDecCharsGo]
    by_cases h : n < 10
    · simp [h]
    · rw [if_neg h, if_neg h,
        ih (n / 10) (by omega) g1 g2 (by omega) (by omega)]

/-- Unfolding equation for the decimal rendering. -/
theorem natToDecChars_eq (n : Nat) :
    natToDecChars n =
      if n < 10 then [decDigitChar n]
      else natToDecChars (n / 10) ++ [decDigitChar (n % 10)] := by
  have step : natToDecChars n =
      if n < 10 then [decDigitChar n]
      else natToDecCharsGo n (n / 10) ++ [decDigitChar (n % 10)] := rfl
  rw [step]
  by_cases h : n < 10
  · rw [if_pos h, if_pos h]
  · rw [if_neg h, if_neg h]
    exact congrArg (fun l => l ++ [decDigitChar (n % 10)])
      (natToDecCharsGo_congr (n / 10) n (n / 10 + 1) (by omega) (by omega))

/-- Digit characters decode to their value. -/
theorem decDigitVal_decDigitChar (n : Nat) (h : n < 10) :
    decDigitVal (decDigitChar n) = n := by
  interval_cases n <;> decide

/-- Digit characters pass the digit test. -/
theorem isDecDigit_decDigitChar (n : Nat) (h : n < 10) :
    isDecDigit (decDigitChar n) = true := by
  interval_cases n <;> decide

/-- Decimal renderings consist of decimal digits. -/
theorem natToDecChars_all_digits (n : Nat) :
    ∀ c ∈ natToDecChars n, isDecDigit c = true := by
  induction n using Nat.strong_induction_on with
  | _ n ih =>
    rw [natToDecChars_eq]
    by_cases h : n < 10
    · simp only [if_pos h, List.mem_singleton]
      rintro c rfl
      exact isDecDigit_decDigitChar n h
    · simp only [if_neg h, List.mem_append, List.mem_singleton]
      rintro c (hc | rfl)
      · exact ih (n / 10) (by omega) c hc
      · exact isDecDigit_decDigitChar (n % 10) (by omega)

/-- Decimal renderings are non-empty. -/
theorem natToDecChars_ne_nil (n : Nat) : natToDecChars n ≠ [] := by
  rw [natToDecChars_eq]
  by_cases h : n < 10 <;> simp [h]

/-- decFold distributes over append. -/
theorem decFold_append : ∀ (l1 l2 : List Char) (acc : Nat),
    decFold (l1 ++ l2) acc = decFold l2 (decFold l1 acc)
  | [], _, _ => rfl
  | c :: cs, l2, acc => decFold_append cs l2 (acc * 10 + decDigitVal c)

/-- Folding the decimal rendering of n recovers n. -/
theorem decFold_natToDecChars (n : Nat) :
    ∀ acc, decFold (natToDecChars n) acc =
      acc * 10 ^ (natToDecChars n).length + n := by
  induction n using Nat.strong_induction_on with
  | _ n ih =>
    intro acc
    rw [natToDecChars_eq]
    rcases Nat.lt_or_ge n 10 with h | h
    · rw [if_pos h]
      simp only [decFold, List.length_singleton, pow_one]
      rw [decDigitVal_decDigitChar n h]
    · rw [if_neg (by omega : ¬n < 10), decFold_append]
      simp only [decFold]
      rw [ih (n / 10) (by omega), decDigitVal_decDigitChar (n % 10) (by omega)]
      simp only [List.length_append, List.length_singleton]
      rw [pow_succ]
      calc (acc * 10 ^ (natToDecChars (n / 10)).length + n / 10) * 10 + n % 10
          = acc * (10 ^ (natToDecChars (n / 10)).length * 10) +
              (10 * (n / 10) + n % 10) := by ring
        _ = acc * (10 ^ (natToDecChars (n / 10)).length * 10) + n := by
              rw [Nat.div_add_mod]

/-- The all-digit test accepts the decimal rendering, and its value is
the rendered number. -/
theorem decVal?_natToDecChars (n : Nat) :
    decVal? (natToDecChars n) = some n := by
  unfold decVal?
  rw [if_pos]
  · rw [decFold_natToDecChars n 0]
    simp
  · exact ⟨natToDecChars_ne_nil n,
      List.all_eq_true.mpr (fun c hc => natToDecChars_all_digits n c hc)⟩

/-- dropWhile is the identity when no element satisfies the predicate. -/
theorem dropWhile_eq_self_of_all {p : Char → Bool} {l : List Char}
    (h : ∀ c ∈ l, p c = false) : l.dropWhile p = l := by
  cases l with
  | nil => rfl
  | cons a t => simp [List.dropWhile_cons, h a (by simp)]

/-- jsTrim is the identity on whitespace-free strings. -/
theorem jsTrim_eq_self_of_all {l : List Char}
    (h : ∀ c ∈ l, isJsSpace c = false) : jsTrim l = l := by
  unfold jsTrim
  rw [dropWhile_eq_self_of_all h,
    dropWhile_eq_self_of_all (fun c hc => h c (List.mem_reverse.mp hc)),
    List.reverse_reverse]

/-- Decimal digits are not JS whitespace. -/
theorem isJsSpace_eq_false_of_decDigit {c : Char} (h : isDecDigit c = true) :
    isJsSpace c = false := by
  unfold isJsSpace
  have hn : ¬(c = ' ' ∨ c = '\t' ∨ c = '\n' ∨ c = '\r') := by
    rintro (rfl | rfl | rfl | rfl) <;> exact absurd h (by decide)
  exact decide_eq_false hn

/-- Decimal digits are none of the special leading characters of the
Number grammar. -/
theorem decDigit_ne (c : Char) (h : isDecDigit c = true) :
    c ≠ '-' ∧ c ≠ '+' ∧ c ≠ '.' ∧ c ≠ 'x' ∧ c ≠ 'X' := by
  refine ⟨?_, ?_, ?_, ?_, ?_⟩ <;> (rintro rfl; exact absurd h (by decide))

/-- Number() recovers the value of a decimal rendering. -/
theorem jsNumber_natToDecChars (n : Nat) :
    jsNumber (natToDecChars n) = some (n : Int) := by
  have hall := natToDecChars_all_digits n
  have hne := natToDecChars_ne_nil n
  have htrim : jsTrim (natToDecChars n) = natToDecChars n :=
    jsTrim_eq_self_of_all (fun c hc => isJsSpace_eq_false_of_decDigit (hall c hc))
  obtain ⟨a, t', he⟩ : ∃ a t', natToDecChars n = a :: t' := by
    cases hh : natToDecChars n with
    | nil => exact absurd hh hne
    | cons a t' => exact ⟨a, t', rfl⟩
  have ha : isDecDigit a = true := hall a (by rw [he]; exact List.mem_cons_self a t')
  have hd := decDigit_ne a ha
  have hmem : ∀ x ∈ (a :: t').take 2, isDecDigit x = true := by
    intro x hx
    exact hall x (by rw [he]; exact List.take_subset 2 (a :: t') hx)
  have h1 : ¬(a :: t' = []) := by simp
  have h2 : ¬((a :: t').head? = some '-') := by simp [hd.1]
  have h3 : ¬((a :: t').head? = some '+') := by simp [hd.2.1]
  have h4 : ¬((a :: t').take 2 = ['0', 'x'] ∨ (a :: t').take 2 = ['0', 'X']) := by
    rintro (hx | hx)
    · rw [hx] at hmem
      exact absurd (hmem 'x' (by simp)) (by decide)
    · rw [hx] at hmem
      exact absurd (hmem 'X' (by simp)) (by decide)
  simp only [jsNumber]
  rw [htrim, he, if_neg h1, if_neg h2, if_neg h3, if_neg h4, ← he,
    decVal?_natToDecChars]
  rfl

/-- Splitting a separator-free string yields the whole string. -/
theorem jsSplitChar_not_mem {c : Char} {l : List Char} (h : c ∉ l) :
    jsSplitChar c l = [l] := by
  induction l with
  | nil => rfl
  | cons a t ih =>
    have hac : ¬(a = c) := by rintro rfl; exact h (List.mem_cons_self a t)
    have ht : c ∉ t := fun hm => h (List.mem_cons_of_mem a hm)
    simp only [jsSplitChar, if_neg hac, ih ht]

/-- Splitting peels one separator-free field at a time. -/
theorem jsSplitChar_append {c : Char} {l1 : List Char} (l2 : List Char)
    (h : c ∉ l1) : jsSplitChar c (l1 ++ c :: l2) = l1 :: jsSplitChar c l2 := by
  induction l1 with
  | nil => simp [jsSplitChar]
  | cons a t ih =>
    have hac : ¬(a = c) := by rintro rfl; exact h (List.mem_cons_self a t)
    have ht : c ∉ t := fun hm => h (List.mem_cons_of_mem a hm)
    rw [List.cons_append]
    simp only [jsSplitChar, if_neg hac]
    rw [ih ht]

/-- Shape of a four-field dotted join. -/
theorem intercalate_four (A B C D : List Char) :
    List.intercalate ['.'] [A, B, C, D] =
      A ++ '.' :: (B ++ '.' :: (C ++ '.' :: D)) := by
  simp [List.intercalate, List.intersperse]

/-- The 32-bit codec round-trip at the list level: for every v < 2^32,
parsing the rendering of v recovers v. -/
theorem ipToIntL_intToIpL (v : Nat) (h : v < 2 ^ 32) :
    ipToIntL (intToIpL v) = some (v : Int) := by
  have hnd : ∀ m : Nat, '.' ∉ natToDecChars m := by
    intro m hm
    exact absurd (natToDecChars_all_digits m '.' hm) (by decide)
  have hsplit : jsSplitChar '.' (intToIpL v) =
      [natToDecChars (v / 16777216 % 256), natToDecChars (v / 65536 % 256),
       natToDecChars (v / 256 % 256), natToDecChars (v % 256)] := by
    rw [intToIpL, intercalate_four,
      jsSplitChar_append _ (hnd (v / 16777216 % 256)),
      jsSplitChar_append _ (hnd (v / 65536 % 256)),
      jsSplitChar_append _ (hnd (v / 256 % 256)),
      jsSplitChar_not_mem (hnd (v % 256))]
  simp only [ipToIntL, hsplit, List.map, jsNumber_natToDecChars]
  rw [if_neg]
  · simp only [List.getD, List.get?, octetVal, Option.getD_some]
    congr 1
    omega
  · simp only [List.length_cons, List.length_nil, List.any_cons, List.any_nil,
      octetBad, Bool.or_false, not_or]
    refine ⟨by omega, ?_⟩
    simp only [Bool.or_eq_true, decide_eq_true_eq, not_or]
    omega

/-- Claim C9: the 32-bit codec round-trip holds — for every v < 2^32,
ipToInt(intToIp(v)) recovers v. -/
theorem ipToInt_intToIp (v : Nat) (h : v < 2 ^ 32) :
    ipToInt (intToIp v) = some (v : Int) :=
  ipToIntL_intToIpL v h

/-- Witness for the 32-bit round-trip at 192.168.1.1. -/
theorem ipToInt_intToIp_witness :
    3232235777 < 2 ^ 32 ∧ ipToInt (intToIp 3232235777) = some (3232235777 : Int) :=
  ⟨by decide, ipToInt_intToIp 3232235777 (by decide)⟩

/-- The uint32 byte renderer of the JSON IPv4 service agrees with
intToIp below 2^32. -/
theorem renderUint32Quad_eq_intToIpL (n : Nat) (h : n < 2 ^ 32) :
    renderUint32Quad n = intToIpL n := by
  unfold renderUint32Quad intToIpL
  rw [Nat.mod_eq_of_lt h]
  norm_num

/-- Every accepted draw of the IPv6 rejection loop lands inside the
inclusive range. -/
theorem randomBigIntInRangeRun_bounds (startInt endInt : Nat)
    (hse : startInt ≤ endInt) :
    ∀ (draws : List Nat) (x : Nat),
      randomBigIntInRangeRun startInt endInt draws = some x →
        startInt ≤ x ∧ x ≤ endInt := by
  intro draws
  induction draws with
  | nil => intro x hx; simp [randomBigIntInRangeRun] at hx
  | cons r rs ih =>
    intro x hx
    unfold randomBigIntInRangeRun at hx
    by_cases hacc : acceptDraw (endInt - startInt + 1) r = true
    · simp [randomBigIntInRangeStep, hacc] at hx
      have hm := Nat.mod_lt r (show 0 < endInt - startInt + 1 by omega)
      omega
    · simp [randomBigIntInRangeStep, hacc] at hx
      exact ih x hx

/-- The Math.floor offset of the IPv4 samplers stays within
[0, endInt - startInt]. -/
theorem ipv4RandomIpInt_bounds (startInt endInt : Nat) (u : ℚ)
    (hse : startInt ≤ endInt) (hu0 : 0 ≤ u) (hu1 : u < 1) :
    (startInt : Int) ≤ ipv4RandomIpInt startInt endInt u ∧
      ipv4RandomIpInt startInt endInt u ≤ (endInt : Int) := by
  unfold ipv4RandomIpInt
  have hR : (0 : ℚ) < (endInt : ℚ) - (startInt : ℚ) + 1 := by
    have : (startInt : ℚ) ≤ (endInt : ℚ) := by exact_mod_cast hse
    linarith
  have hlow : (0 : Int) ≤ ⌊u * ((endInt : ℚ) - (startInt : ℚ) + 1)⌋ := by
    rw [Int.le_floor]
    push_cast
    positivity
  have hup : ⌊u * ((endInt : ℚ) - (startInt : ℚ) + 1)⌋ ≤
      (endInt : Int) - (startInt : Int) := by
    have hmul : u * ((endInt : ℚ) - (startInt : ℚ) + 1) <
        (endInt : ℚ) - (startInt : ℚ) + 1 := by
      nlinarith
    have : ⌊u * ((endInt : ℚ) - (startInt : ℚ) + 1)⌋ <
        (endInt : Int) - (startInt : Int) + 1 := by
      rw [Int.floor_lt]
      push_cast
      linarith
    omega
  omega

/-- Claim C4: sampling bounds hold for every generator.  For every IPv4
range with startInt <= endInt < 2^32 and every Math.random draw u in
[0, 1) (modelled as an exact rational), both IPv4 implementations return
an address whose parsed integer value is the sampled integer, which lies
in [startInt, endInt]; and for every range s6 <= e6 of the full 128-bit
space, every value the IPv6 rejection loop produces lies in [s6, e6]. -/
theorem sampling_bounds (startInt endInt s6 e6 : Nat) (u : ℚ)
    (draws : List Nat) (x : Nat) (hse : startInt ≤ endInt)
    (hlt : endInt < 2 ^ 32) (hse6 : s6 ≤ e6) (hu0 : 0 ≤ u) (hu1 : u < 1) :
    ((startInt : Int) ≤ ipv4RandomIpInt startInt endInt u ∧
      ipv4RandomIpInt startInt endInt u ≤ (endInt : Int)) ∧
    ipToIntL (generateRandomIpInRangeUtils startInt endInt u) =
      some (ipv4RandomIpInt startInt endInt u) ∧
    ipToIntL (generateRandomIpInRangeJson startInt endInt u) =
      some (ipv4RandomIpInt startInt endInt u) ∧
    (randomBigIntInRangeRun s6 e6 draws = some x → s6 ≤ x ∧ x ≤ e6) := by
  obtain ⟨hlow, hup⟩ := ipv4RandomIpInt_bounds startInt endInt u hse hu0 hu1
  have hnn : 0 ≤ ipv4RandomIpInt startInt endInt u := by omega
  have htn : ((ipv4RandomIpInt startInt endInt u).toNat : Int) =
      ipv4RandomIpInt startInt endInt u := Int.toNat_of_nonneg hnn
  have hv32 : (ipv4RandomIpInt startInt endInt u).toNat < 2 ^ 32 := by omega
  have hutils : ipToIntL (generateRandomIpInRangeUtils startInt endInt u) =
      some (ipv4RandomIpInt startInt endInt u) := by
    unfold generateRandomIpInRangeUtils
    rw [ipToIntL_intToIpL _ hv32, htn]
  refine ⟨⟨hlow, hup⟩, hutils, ?_, randomBigIntInRangeRun_bounds s6 e6 hse6 draws x⟩
  unfold generateRandomIpInRangeJson
  rw [renderUint32Quad_eq_intToIpL _ hv32]
  rw [ipToIntL_intToIpL _ hv32, htn]

/-- Witness for the sampling bounds on the IPv4 range 1.2.0.0 -
1.2.0.255 with u = 1/2, and on the 128-bit IPv6 range 2001:db8:: -
2001:db8::ffff (42540766411282592856903984951653826560 to
...+65535, far above 2^32) with one accepted draw of 0. -/
theorem sampling_bounds_witness :
    ((16908288 : Int) ≤ ipv4RandomIpInt 16908288 16908543 (1 / 2) ∧
      ipv4RandomIpInt 16908288 16908543 (1 / 2) ≤ (16908543 : Int)) ∧
    ipToIntL (generateRandomIpInRangeUtils 16908288 16908543 (1 / 2)) =
      some (ipv4RandomIpInt 16908288 16908543 (1 / 2)) ∧
    ipToIntL (generateRandomIpInRangeJson 16908288 16908543 (1 / 2)) =
      some (ipv4RandomIpInt 16908288 16908543 (1 / 2)) ∧
    (randomBigIntInRangeRun 42540766411282592856903984951653826560
        42540766411282592856903984951653892095 [0] =
        some 42540766411282592856903984951653826560 →
      42540766411282592856903984951653826560 ≤
        42540766411282592856903984951653826560 ∧
      42540766411282592856903984951653826560 ≤
        42540766411282592856903984951653892095) :=
  sampling_bounds 16908288 16908543 42540766411282592856903984951653826560
    42540766411282592856903984951653892095 (1 / 2) [0]
    42540766411282592856903984951653826560
    (by norm_num) (by norm_num) (by norm_num) (by norm_num) (by norm_num)

/-- A successful find? splits the list at the first hit. -/
theorem find?_split {α : Type} (p : α → Bool) :
    ∀ (l : List α) (a : α), l.find? p = some a →
      ∃ l1 l2, l = l1 ++ a :: l2 ∧ ∀ x ∈ l1, p x = false := by
  intro l
  induction l with
  | nil => intro a ha; simp at ha
  | cons b t ih =>
    intro a ha
    by_cases hb : p b = true
    · rw [List.find?_cons_of_pos _ hb] at ha
      obtain rfl : b = a := by injection ha
      exact ⟨[], t, rfl, by simp⟩
    · rw [List.find?_cons_of_neg _ hb] at ha
      obtain ⟨l1, l2, rfl, hall⟩ := ih a ha
      refine ⟨b :: l1, l2, rfl, ?_⟩
      intro x hx
      rcases List.mem_cons.mp hx with rfl | hx2
      · simpa using hb
      · exact hall x hx2

/-- Claim C5 (amended): findCountryV6 tries exact matches before
substring matches, and among substring matches returns the first in
dataset order (no shorter-matched-name preference exists in the code). -/
theorem findCountryV6_precedence (ds : List CountryV6) (q : List Char) :
    ((∃ c ∈ ds, exactMatchB (normQuery q) c = true) →
      ∃ c, findCountryV6 ds q = some c ∧ c ∈ ds ∧
        exactMatchB (normQuery q) c = true) ∧
    ((∀ c ∈ ds, exactMatchB (normQuery q) c = false) →
      ∀ c, findCountryV6 ds q = some c →
        c ∈ ds ∧ fuzzyMatchB (normQuery q) c = true ∧
        ∃ l1 l2, ds = l1 ++ c :: l2 ∧
          ∀ e ∈ l1, fuzzyMatchB (normQuery q) e = false) := by
  simp only [findCountryV6]
  constructor
  · rintro ⟨c0, hc0, hex⟩
    cases hfind : ds.find? (exactMatchB (normQuery q)) with
    | none =>
      have hnone := List.find?_eq_none.mp hfind c0 hc0
      exact absurd hex hnone
    | some c1 =>
      exact ⟨c1, rfl, List.mem_of_find?_eq_some hfind,
        List.find?_some hfind⟩
  · intro hall c hc
    cases hfind : ds.find? (exactMatchB (normQuery q)) with
    | some c1 =>
      have hp := List.find?_some hfind
      have hmem := List.mem_of_find?_eq_some hfind
      rw [hall c1 hmem] at hp
      exact absurd hp (by simp)
    | none =>
      rw [hfind] at hc
      exact ⟨List.mem_of_find?_eq_some hc, List.find?_some hc,
        find?_split _ ds c hc⟩

/-- Claim C5 counterexample: with no exact match for "Chin", the dataset
[Indochina Area, China] makes findCountryV6 return the first substring
match "Indochina Area" although "China" also matches and has the
strictly shorter matched name — the shorter-name preference the claim
asserts does not hold. -/
theorem findCountryV6_counterexample :
    findCountryV6 [cIndochina, cChina] "Chin".data = some cIndochina ∧
    (∀ c ∈ [cIndochina, cChina], exactMatchB (normQuery "Chin".data) c = false) ∧
    fuzzyMatchB (normQuery "Chin".data) cChina = true ∧
    cChina.nameEn.length < cIndochina.nameEn.length ∧
    cIndochina ≠ cChina := by decide

/-- Witness for the resolver precedence: the exact code match "CN" is
returned even though the dataset is unordered for it. -/
theorem findCountryV6_precedence_witness :
    ∃ c, findCountryV6 [cIndochina, cChina] "CN".data = some c ∧
      c ∈ [cIndochina, cChina] ∧
      exactMatchB (normQuery "CN".data) c = true :=
  (findCountryV6_precedence [cIndochina, cChina] "CN".data).1
    ⟨cChina, by decide, by decide⟩

/-- Claim C6 (amended): the middleware denies exactly when the
post-increment count exceeds the endpoint limit, and the denial carries
retryAfter = ceil(windowMs / 1000) — the full window length, not the
window's remaining TTL; counts within the limit (including the fail-open
count 0) are allowed. -/
theorem rateLimit_threshold (cfg : RLConfig) (st : RLStore) (key : List Char)
    (now : Nat) :
    (cfg.requests < (incrementRateLimit st key cfg.ttl now).1 →
      (rateLimitMiddleware cfg st key now).1 =
        RLDecision.deny ((cfg.windowMs + 999) / 1000)) ∧
    ((incrementRateLimit st key cfg.ttl now).1 ≤ cfg.requests →
      (rateLimitMiddleware cfg st key now).1 = RLDecision.allow) ∧
    (0 < cfg.windowMs → 0 < (cfg.windowMs + 999) / 1000) := by
  rcases hp : incrementRateLimit st key cfg.ttl now with ⟨c, st2⟩
  simp only [rateLimitMiddleware, hp]
  refine ⟨?_, ?_, ?_⟩
  · intro h
    rw [if_neg (by omega : ¬c = 0), if_pos h]
  · intro h
    by_cases h0 : c = 0
    · rw [if_pos h0]
    · rw [if_neg h0, if_neg (by omega : ¬cfg.requests < c)]
  · intro h
    omega

/-- Claim C6 counterexample: at 30 seconds into a 60-second window with
the counter at the limit of 10, the 11th call is denied with
retryAfter = 60 although the window's remaining TTL is 30 — retryAfter
is the full window, not the remaining TTL. -/
theorem rateLimit_retryAfter_counterexample :
    (rateLimitMiddleware generateIpLimit ⟨true, true, [("k".data, 10, 60)]⟩
      "k".data 30).1 = RLDecision.deny 60 ∧
    remainingTTL (rateLimitMiddleware generateIpLimit
      ⟨true, true, [("k".data, 10, 60)]⟩ "k".data 30).2 "k".data 30 = 30 ∧
    (60 : Nat) ≠ 30 := by decide

/-- Witness for the rate-limit threshold: after 10 calls in one window,
the 11th call for the same key is denied with retryAfter 60 > 0. -/
theorem rateLimit_threshold_witness :
    (rateLimitMiddleware generateIpLimit
        (rateLimitCalls generateIpLimit "k".data 0 10 ⟨true, true, []⟩)
        "k".data 0).1 = RLDecision.deny 60 ∧ (0 : Nat) < 60 :=
  ⟨(rateLimit_threshold generateIpLimit
      (rateLimitCalls generateIpLimit "k".data 0 10 ⟨true, true, []⟩)
      "k".data 0).1 (by decide), by decide⟩

/-- Claim C7: both resilience layers fail open.  When every cache-store
operation fails (ok = false) or the store is disabled, withCache still
returns exactly the producer's value after invoking it, and the
rate-limit middleware allows the request instead of denying it. -/
theorem cache_and_rateLimit_fail_open (st : KVStore) (key : List Char)
    (p : JsVal) (cfg : RLConfig) (rst : RLStore) (rkey : List Char) (now : Nat)
    (hc : st.ok = false ∨ st.enabled = false)
    (hr : rst.ok = false ∨ rst.enabled = false) :
    (withCache st key p).1 = p ∧ (withCache st key p).2.2 = true ∧
    (rateLimitMiddleware cfg rst rkey now).1 = RLDecision.allow := by
  have hget : cacheGet st key = JsVal.null := by
    rcases hc with h | h
    · by_cases he : st.enabled = true
      · simp [cacheGet, he, h]
      · simp [cacheGet, he]
    · simp [cacheGet, h]
  have hw : withCache st key p = (p, cacheSet st key p, true) := by
    unfold withCache
    rw [hget]
    simp
  have hinc : incrementRateLimit rst rkey cfg.ttl now = (0, rst) := by
    rcases hr with h | h
    · by_cases he : rst.enabled = true
      · simp [incrementRateLimit, he, h]
      · simp [incrementRateLimit, he]
    · simp [incrementRateLimit, h]
  refine ⟨by rw [hw], by rw [hw], ?_⟩
  simp [rateLimitMiddleware, hinc]

/-- Witness for the fail-open behaviour with an erroring cache store and
a disabled counter store. -/
theorem cache_and_rateLimit_fail_open_witness :
    (withCache ⟨true, false, []⟩ "k".data (JsVal.payload 7)).1 =
      JsVal.payload 7 ∧
    (withCache ⟨true, false, []⟩ "k".data (JsVal.payload 7)).2.2 = true ∧
    (rateLimitMiddleware generateIpLimit ⟨false, true, []⟩ "k".data 0).1 =
      RLDecision.allow :=
  cache_and_rateLimit_fail_open ⟨true, false, []⟩ "k".data (JsVal.payload 7)
    generateIpLimit ⟨false, true, []⟩ "k".data 0 (Or.inl rfl) (Or.inr rfl)

/-- Claim C10: a null producer result is never served from cache.
cache.get yields null alike when the store is disabled, when it errors,
on a miss, and when the stored payload is null; withCache treats null as
a miss, so with a null-producing producer every call invokes the
producer, returns its live null result, and leaves the key in a state
from which the next call behaves identically. -/
theorem withCache_null_never_cached (st : KVStore) (key : List Char)
    (h : st.enabled = false ∨ st.ok = false ∨ lookupKV st.entries key = none ∨
      lookupKV st.entries key = some JsVal.null) :
    cacheGet st key = JsVal.null ∧
    (withCache st key JsVal.null).1 = JsVal.null ∧
    (withCache st key JsVal.null).2.2 = true ∧
    ((withCache st key JsVal.null).2.1.enabled = false ∨
      (withCache st key JsVal.null).2.1.ok = false ∨
      lookupKV (withCache st key JsVal.null).2.1.entries key = none ∨
      lookupKV (withCache st key JsVal.null).2.1.entries key =
        some JsVal.null) := by
  obtain ⟨en, ok, entries⟩ := st
  have hget : cacheGet ⟨en, ok, entries⟩ key = JsVal.null := by
    cases en
    · simp [cacheGet]
    · cases ok
      · simp [cacheGet]
      · rcases h with h | h | h | h
        · simp at h
        · simp at h
        · simp [cacheGet, h]
        · simp [cacheGet, h]
  have hw : withCache ⟨en, ok, entries⟩ key JsVal.null =
      (JsVal.null, cacheSet ⟨en, ok, entries⟩ key JsVal.null, true) := by
    unfold withCache
    rw [hget]
    simp
  refine ⟨hget, by rw [hw], by rw [hw], ?_⟩
  rw [hw]
  cases en
  · simp [cacheSet]
  · cases ok
    · simp [cacheSet]
    · simp [cacheSet, lookupKV]

/-- Witness for the null-miss behaviour on a store already holding a
null payload under the key. -/
theorem withCache_null_never_cached_witness :
    cacheGet ⟨true, true, [("k".data, JsVal.null)]⟩ "k".data = JsVal.null ∧
    (withCache ⟨true, true, [("k".data, JsVal.null)]⟩ "k".data JsVal.null).1 =
      JsVal.null ∧
    (withCache ⟨true, true, [("k".data, JsVal.null)]⟩ "k".data
      JsVal.null).2.2 = true ∧
    ((withCache ⟨true, true, [("k".data, JsVal.null)]⟩ "k".data
        JsVal.null).2.1.enabled = false ∨
      (withCache ⟨true, true, [("k".data, JsVal.null)]⟩ "k".data
        JsVal.null).2.1.ok = false ∨
      lookupKV (withCache ⟨true, true, [("k".data, JsVal.null)]⟩ "k".data
        JsVal.null).2.1.entries "k".data = none ∨
      lookupKV (withCache ⟨true, true, [("k".data, JsVal.null)]⟩ "k".data
        JsVal.null).2.1.entries "k".data = some JsVal.null) :=
  withCache_null_never_cached ⟨true, true, [("k".data, JsVal.null)]⟩ "k".data
    (Or.inr (Or.inr (Or.inr (by decide))))

/-- Claim C8 (amended): ipToInt rejects a wrong segment count and any
segment that is NaN or out of [0, 255], but Number coerces an empty
segment to 0, so "1.2.3." is accepted as 1.2.3.0; ipv6ToBigInt rejects
exactly the inputs whose eight-group expansion does not have length 8 or
whose group fails parseInt, so a second "::" (whose trailing section is
silently dropped) and hextets above 0xFFFF are accepted. -/
theorem textToInt_error_behaviour :
    (∀ s : List Char, (jsSplitChar '.' s).length ≠ 4 → ipToIntL s = none) ∧
    (∀ s : List Char, ∀ q ∈ (jsSplitChar '.' s).map jsNumber,
      (q = none ∨ ∃ v : Int, q = some v ∧ (v < 0 ∨ 255 < v)) →
        ipToIntL s = none) ∧
    ipToInt "1.2.3." = some 16909056 ∧
    (∀ s : List Char, (ipv6PartsOf s).length ≠ 8 → ipv6ToBigIntL s = none) ∧
    ipv6ToBigInt "1::2::3" = some ((2 : Int) ^ 112 + 2) ∧
    ipv6ToBigInt "fffff::" = some (1048575 * (2 : Int) ^ 112) := by
  refine ⟨?_, ?_, by decide, ?_, by decide, by decide⟩
  · intro s hlen
    simp only [ipToIntL]
    rw [if_pos]
    left
    rwa [List.length_map]
  · intro s q hq hbad
    have hqbad : octetBad q = true := by
      rcases hbad with rfl | ⟨v, rfl, hv⟩
      · rfl
      · simp only [octetBad, Bool.or_eq_true, decide_eq_true_eq]
        omega
    simp only [ipToIntL]
    rw [if_pos]
    right
    rw [List.any_eq_true]
    exact ⟨q, hq, hqbad⟩
  · intro s hlen
    simp only [ipv6ToBigIntL]
    rw [if_pos hlen]

/-- Claim C8 counterexample: "1.2.3." is not four decimal octets yet is
accepted (empty segment coerced to 0), and "1::2::3" carries two "::"
yet parses successfully (the "::3" section is dropped), contradicting
the claimed rejections. -/
theorem textToInt_rejection_counterexample :
    ipToInt "1.2.3." = some 16909056 ∧
    countDC "1::2::3".data = 2 ∧
    ipv6ToBigInt "1::2::3" = some ((2 : Int) ^ 112 + 2) := by decide

/-- Witness for the rejection cases that do hold: three IPv4 segments
and nine IPv6 groups are rejected. -/
theorem textToInt_error_behaviour_witness :
    ipToIntL "1.2.3".data = none ∧
    ipv6ToBigIntL "1:2:3:4:5:6:7:8:9".data = none :=
  ⟨textToInt_error_behaviour.1 "1.2.3".data (by decide),
   textToInt_error_behaviour.2.2.2.1 "1:2:3:4:5:6:7:8:9".data (by decide)⟩

/-- Sanity checks of the codec embedding on the well-behaved cases: edge
zero-run compression, its inverse, and the dotted-quad pair. -/
theorem codec_sanity :
    bigIntToIpv6 1 = "::1" ∧
    bigIntToIpv6 (0x20010db8 * 2 ^ 96) = "2001:db8::" ∧
    ipv6ToBigInt "2001:db8::" = some ((0x20010db8 : Int) * 2 ^ 96) ∧
    ipToInt "192.168.1.1" = some 3232235777 ∧
    intToIp 3232235777 = "192.168.1.1" ∧
    ipToInt "1.2.3.256" = none ∧ ipToInt "1.2.3" = none := by
  refine ⟨by decide, by decide, by decide, by decide, by decide, by decide, by decide⟩
